import Mathlib

/-!
# Verification of the exws fan-out hub

A shallow embedding of the two Go source variants of the repository
(`src/main.go` and `src/unnamed/part_000`): a websocket fan-out hub with a
`ClientManager` dispatcher loop (register / unregister / broadcast), per
connection handler functions, and a periodic price-snapshot producer
(`simulatePriceUpdate`).

Modelling conventions:
* connection handles (`*websocket.Conn` pointers) are modelled by their
  identity, a natural number;
* the `float64` / `decimal.Decimal` arithmetic of the producer is modelled
  by exact rational arithmetic (the formulas of the spec are exact-value
  statements);
* the Go map `clients` is modelled by an association list with Go map
  update/delete semantics;
* the dispatcher loop is modelled as a step function on a hub state, one
  step per `select` iteration, recording the write attempts and the
  `Close` calls each step performs.
-/

namespace Exws

/-- A connection handle (`*websocket.Conn`), by identity. -/
abbrev Conn := Nat

/-- The `Asset` struct of the source; the four `decimal.Decimal` fields are
modelled as rationals. -/
structure Asset where
  balance : ℚ
  pnl : ℚ
  margin : ℚ
  canTransfer : ℚ
deriving DecidableEq, Repr

/-! ## The snapshot producer (`simulatePriceUpdate`) -/

/-- The loop-local variables of `simulatePriceUpdate`. -/
structure ProducerState where
  previousPrice : ℚ
  balance : ℚ
  amount : ℚ
  lockBalance : ℚ
deriving DecidableEq, Repr

/-- The initialisation preceding the producer loop:
`previousPrice := 100.0; balance := 26800.5; amount := 88.8;
lockBalance := 100.0 * amount`. -/
def producerInit : ProducerState where
  previousPrice := 100.0
  balance := 26800.5
  amount := 88.8
  lockBalance := 100.0 * 88.8

/-- One iteration of the producer's `for` loop, given the value `r` drawn
from `rand.Float64()` this tick.  Computes
`newPrice := previousPrice * (1 + (r-0.5)/100)`,
`pnl := (newPrice - previousPrice) * amount`, and builds the emitted
`Asset`.  The returned state is the state carried to the next iteration:
the loop body assigns to none of the loop-local variables, so it is the
input state unchanged. -/
def simulateTick (st : ProducerState) (r : ℚ) : Asset × ProducerState :=
  let newPrice := st.previousPrice * (1 + (r - 0.5) / 100)
  let pnl := (newPrice - st.previousPrice) * st.amount
  ({ balance := st.balance
     pnl := pnl
     margin := st.balance - pnl
     canTransfer := st.balance - pnl - st.lockBalance }, st)

/-- The new price computed at a tick from state `st` and random draw `r`. -/
def tickNewPrice (st : ProducerState) (r : ℚ) : ℚ :=
  st.previousPrice * (1 + (r - 0.5) / 100)

/-- The producer's state at the start of tick `n`, where `rs k` is the value
`rand.Float64()` returns on tick `k`. -/
def producerStateAt (rs : ℕ → ℚ) : ℕ → ProducerState
  | 0 => producerInit
  | n + 1 => (simulateTick (producerStateAt rs n) (rs n)).2

/-- The asset emitted (sent on the broadcast channel) at tick `n`. -/
def emittedAsset (rs : ℕ → ℚ) (n : ℕ) : Asset :=
  (simulateTick (producerStateAt rs n) (rs n)).1

/-! ## The registry and the dispatcher loop (`ClientManager.start`)

The `clients` Go map is modelled by an association list from connection
handles to the stored metadata (`bool` in `main.go`, `Client` in
`part_000`); the metadata type is a parameter `β`.  A dispatcher step
handles one received operation, exactly following the three `select`
branches. -/

/-- The `Client` struct of the part_000 variant. -/
structure Client where
  conn : Conn
  uuid : String
deriving DecidableEq, Repr

/-- Go map update `m[k] = v`: overwrite the entry when the key is present,
otherwise add a new entry. -/
def mapSet {β : Type} (m : List (Conn × β)) (k : Conn) (v : β) : List (Conn × β) :=
  if k ∈ m.map Prod.fst then
    m.map (fun p => if p.1 = k then (k, v) else p)
  else
    m ++ [(k, v)]

/-- Go `delete(m, k)`. -/
def mapDel {β : Type} (m : List (Conn × β)) (k : Conn) : List (Conn × β) :=
  m.filter (fun p => p.1 ≠ k)

/-- The keys of the registry. -/
def keys {β : Type} (m : List (Conn × β)) : List Conn :=
  m.map Prod.fst

/-- The state owned by the dispatcher: the `clients` registry, plus the
history of `Close` calls performed so far (each call appended, so a handle
closed twice appears twice). -/
structure HubState (β : Type) where
  clients : List (Conn × β)
  closed : List Conn
deriving DecidableEq, Repr

/-- The initial hub state: `clients: make(map...)`, nothing closed. -/
def hubInit (β : Type) : HubState β := ⟨[], []⟩

/-- One operation received by the dispatcher's `select`:
registration of a connection with its metadata, unregistration,
or a broadcast of an asset where `fail` lists the connections whose
`WriteJSON` call returns an error. -/
inductive HubOp (β : Type) where
  | register (c : Conn) (v : β)
  | unregister (c : Conn)
  | broadcast (a : Asset) (fail : List Conn)
deriving DecidableEq, Repr

/-- The body of the broadcast branch:
`for conn := range clients { if err := conn.WriteJSON(asset); err != nil
{ delete(clients, conn); conn.Close() } }`.
Returns the surviving entries, the handles closed during the pass (in
visit order), and the write attempts made, each carrying the payload
written. -/
def broadcastLoop {β : Type} (a : Asset) (fail : List Conn) :
    List (Conn × β) → List (Conn × β) × List Conn × List (Conn × Asset)
  | [] => ([], [], [])
  | (c, v) :: rest =>
    let r := broadcastLoop a fail rest
    if c ∈ fail then (r.1, c :: r.2.1, (c, a) :: r.2.2)
    else ((c, v) :: r.1, r.2.1, (c, a) :: r.2.2)

/-- One iteration of the dispatcher loop on the received operation.
Returns the new hub state and the write attempts performed:
* register branch: `clients[conn] = v` (the map insert; in `part_000` this
  same map update is performed directly by the connection handler under the
  mutex, and the dispatcher's register branch only logs);
* unregister branch: `if _, ok := clients[conn]; ok { delete(clients, conn);
  conn.Close() }`;
* broadcast branch: the write/remove/close pass of `broadcastLoop`. -/
def hubStep {β : Type} (st : HubState β) : HubOp β → HubState β × List (Conn × Asset)
  | .register c v => (⟨mapSet st.clients c v, st.closed⟩, [])
  | .unregister c =>
    if c ∈ keys st.clients then
      (⟨mapDel st.clients c, st.closed ++ [c]⟩, [])
    else (st, [])
  | .broadcast a fail =>
    let r := broadcastLoop a fail st.clients
    (⟨r.1, st.closed ++ r.2.1⟩, r.2.2)

/-- The hub state after processing a sequence of operations from the
initial state. -/
def hubRun {β : Type} (ops : List (HubOp β)) : HubState β :=
  ops.foldl (fun st op => (hubStep st op).1) (hubInit β)

/-- The `Close` calls a single dispatcher step performs (the suffix the
step appends to the close history). -/
def stepCloses {β : Type} (st : HubState β) (op : HubOp β) : List Conn :=
  (hubStep st op).1.closed.drop st.closed.length

/-- The registry invariant: no duplicate entry for the same connection
identity, and no registered entry whose handle has already been closed. -/
def RegistryInv {β : Type} (st : HubState β) : Prop :=
  (keys st.clients).Nodup ∧ ∀ c ∈ keys st.clients, c ∉ st.closed

instance {β : Type} (st : HubState β) : Decidable (RegistryInv st) := by
  unfold RegistryInv; infer_instance

/-- `true` when the operation is not a registration of a handle that has
already been closed.  In the program every registered handle is a fresh
one: the acceptor registers a connection exactly once, right after the
successful handshake and before any code path can close it. -/
def registerFresh {β : Type} (st : HubState β) : HubOp β → Bool
  | .register c _ => !(decide (c ∈ st.closed))
  | _ => true

/-- `true` when every registration in the sequence registers a handle not
closed at that point (see `registerFresh`), starting from state `st`. -/
def freshFrom {β : Type} (st : HubState β) : List (HubOp β) → Bool
  | [] => true
  | op :: rest => registerFresh st op && freshFrom (hubStep st op).1 rest

/-! ## Connection handler traces

Events a connection handler performs, as observed at the manager and at
the transport.  `handleConnections` differs between the two variants:

* `main.go`: sends the connection on the register channel, then loops on
  `ReadMessage`; on a read error it sends on the unregister channel and —
  having no `break` — keeps looping (and keeps sending on read errors), so
  the function never returns and its `defer conn.Close()` never runs.
* `part_000`: first does `ReadJSON(&uuid)`; on failure it returns at once
  (only the `defer conn.Close()` runs).  On success it inserts
  `Client{conn, uuid}` directly into the map under the mutex, then loops on
  `ReadMessage`; on a read error it sends on the unregister channel and
  `break`s, so the function returns and the `defer conn.Close()` runs. -/

/-- Handler events. -/
inductive HEvent where
  | sendRegister (c : Conn)
  | sendUnregister (c : Conn)
  | mapInsert (c : Conn) (uuid : String)
  | closeConn (c : Conn)
deriving DecidableEq, Repr

/-- Trace of `handleConnections` in the `main.go` variant for connection
`c`, cut off after `k` iterations of the read loop past the first read
error (the loop never terminates: each errored iteration sends another
unregister).  Successful reads emit no event. -/
def handlerTraceMain (c : Conn) (k : ℕ) : List HEvent :=
  HEvent.sendRegister c :: List.replicate k (HEvent.sendUnregister c)

/-- Trace of `handleConnections` in the part_000 variant for connection
`c`: `uuidOk` tells whether the initial `ReadJSON(&uuid)` succeeds.  On
failure the handler returns immediately and only the deferred `Close`
runs.  On success it inserts the client directly into the registry, reads
until the first read error, sends one unregister, breaks, and the
deferred `Close` runs. -/
def handlerTraceP0 (c : Conn) (uuid : String) (uuidOk : Bool) : List HEvent :=
  if uuidOk then
    [HEvent.mapInsert c uuid, HEvent.sendUnregister c, HEvent.closeConn c]
  else
    [HEvent.closeConn c]

/-- Registry effect of one handler event in the part_000 variant: the
direct map insert performs the register-style update; a send on the
unregister channel is handled by the dispatcher's unregister branch; a
send on the register channel reaches a branch that only logs (it performs
no registry mutation); a `Close` by the handler does not touch the
registry. -/
def eventOpsP0 : HEvent → List (HubOp Client)
  | .mapInsert c uuid => [.register c ⟨c, uuid⟩]
  | .sendUnregister c => [.unregister c]
  | .sendRegister _ => []
  | .closeConn _ => []

/-- The hub operations induced by a part_000 handler trace. -/
def traceOpsP0 (tr : List HEvent) : List (HubOp Client) :=
  (tr.map eventOpsP0).flatten

/-- Number of times the dispatcher's register-channel branch runs as a
result of the given trace: once per send on the register channel. -/
def registerBranchRuns (tr : List HEvent) : ℕ :=
  (tr.filter (fun e => match e with | .sendRegister _ => true | _ => false)).length

/-! ## Per-connection lifecycle and `Close` counts

How a registered connection's life ends: a read error detected by its
handler's read loop, or a failed write during a broadcast pass (after
which its reads also fail). -/

/-- What ends a connection's life. -/
inductive Fate where
  | readError
  | writeFail
deriving DecidableEq, Repr

/-- The manager operations processed over one `main.go` connection
lifecycle: the registration, then — depending on the fate — a broadcast
pass in which the connection's write fails, and the unregister sends from
the handler's read loop.  Because that loop has no `break`, read errors
keep producing unregister sends; `k` counts the sends past the first
(`Fate.readError` sends at least one). -/
def lifecycleOpsMain (c : Conn) (a : Asset) (f : Fate) (k : ℕ) : List (HubOp Bool) :=
  match f with
  | .readError =>
    HubOp.register c true :: List.replicate (k + 1) (HubOp.unregister c)
  | .writeFail =>
    HubOp.register c true :: HubOp.broadcast a [c] :: List.replicate k (HubOp.unregister c)

/-- Total number of `Close` calls on connection `c` over a `main.go`
lifecycle: the dispatcher's closes recorded in the hub state.  The handler
contributes none: its read loop never breaks, so `handleConnections` never
returns and the deferred `Close` never runs. -/
def closeCountMain (c : Conn) (a : Asset) (f : Fate) (k : ℕ) : ℕ :=
  (hubRun (lifecycleOpsMain c a f k)).closed.count c

/-- The manager operations processed over one part_000 connection
lifecycle with a successful UUID read: the direct registration, then —
for `Fate.writeFail` — the broadcast pass in which the connection's write
fails, then the single unregister send from the read loop (which `break`s
after sending). -/
def lifecycleOpsP0 (c : Conn) (uuid : String) (a : Asset) (f : Fate) :
    List (HubOp Client) :=
  match f with
  | .readError => [HubOp.register c ⟨c, uuid⟩, HubOp.unregister c]
  | .writeFail => [HubOp.register c ⟨c, uuid⟩, HubOp.broadcast a [c], HubOp.unregister c]

/-- Total number of `Close` calls on connection `c` over a part_000
lifecycle: the dispatcher's closes recorded in the hub state, plus the
handler's own deferred `Close`, which runs on every terminating path
(`uuidOk = false`: immediate return; `uuidOk = true`: the read loop
`break`s after the unregister send). -/
def closeCountP0 (c : Conn) (uuid : String) (a : Asset) (uuidOk : Bool) (f : Fate) : ℕ :=
  (if uuidOk then (hubRun (lifecycleOpsP0 c uuid a f)).closed.count c else 0) +
    (handlerTraceP0 c uuid uuidOk).count (HEvent.closeConn c)

/-! ## Interleaving model of the lock discipline

A small labelled transition system for the part_000 variant, the variant in
which two kinds of threads touch the registry: the dispatcher (thread id
`0`), whose unregister and broadcast branches run under
`manager.mutex.Lock() … Unlock()`, and the connection handlers (handler
`n` has thread id `n + 1`), which insert into the registry directly under
the same mutex.  Channel receives are modelled as nondeterministic choices
of the dispatcher at its `select`; this only adds interleavings, so the
serialization theorem is proved over a superset of the program's
executions.  Handlers whose initial UUID read fails never touch the lock
or the registry and are therefore not modelled. -/

/-- Program locations of the dispatcher thread inside one iteration of
`ClientManager.start`. -/
inductive DLoc where
  | select
  | regLog
  | unregLock (c : Conn)
  | unregDel (c : Conn)
  | unregUnlock
  | bcastLock (a : Asset) (fail : List Conn)
  | bcastIter (a : Asset) (fail : List Conn) (pending : List (Conn × Client))
  | bcastUnlock
deriving DecidableEq

/-- Program locations of a connection-handler thread (part_000
`handleConnections`, after a successful UUID read). -/
inductive HLoc where
  | regLock (c : Conn) (uuid : String)
  | regInsert (c : Conn) (uuid : String)
  | regUnlock (c : Conn)
  | readLoop (c : Conn)
  | sendUnreg (c : Conn)
  | done
deriving DecidableEq

/-- A system state: the mutex (`none` = unlocked, `some t` = held by
thread `t`), the shared `clients` registry, the dispatcher's location, and
the location of each handler thread (`none` = not spawned / terminated). -/
structure Sys where
  lock : Option ℕ
  clients : List (Conn × Client)
  dloc : DLoc
  handlers : ℕ → Option HLoc

/-- Labels on transitions. -/
inductive Act where
  | acquire
  | release
  | recv
  | regWrite (c : Conn)
  | delWrite (c : Conn)
  | writeAttempt (c : Conn)
  | bcastBegin
  | bcastEnd
  | spawn
  | tau
deriving DecidableEq

/-- The initial state: mutex unlocked, empty registry, dispatcher at its
`select`, no handler threads yet. -/
def sysInit : Sys := ⟨none, [], .select, fun _ => none⟩

/-- One interleaved step: `Step s t a s'` means thread `t` performs the
action labelled `a`.  The dispatcher's constructors follow the three
`select` branches of part_000's `ClientManager.start` (the register branch
only logs); the handler constructors follow part_000's
`handleConnections` after a successful UUID read.  `bcastAcquire` is
labelled `bcastBegin`: in the source the lock acquisition immediately
precedes the `range` loop of the pass. -/
inductive Step : Sys → ℕ → Act → Sys → Prop where
  | recvReg {s : Sys} (h : s.dloc = .select) :
      Step s 0 .recv { s with dloc := .regLog }
  | regLogStep {s : Sys} (h : s.dloc = .regLog) :
      Step s 0 .tau { s with dloc := .select }
  | recvUnreg {s : Sys} (c : Conn) (h : s.dloc = .select) :
      Step s 0 .recv { s with dloc := .unregLock c }
  | unregAcquire {s : Sys} {c : Conn} (h : s.dloc = .unregLock c)
      (hl : s.lock = none) :
      Step s 0 .acquire { s with lock := some 0, dloc := .unregDel c }
  | unregDelStep {s : Sys} {c : Conn} (h : s.dloc = .unregDel c) :
      Step s 0 (.delWrite c)
        { s with
          clients := if c ∈ keys s.clients then mapDel s.clients c else s.clients
          dloc := .unregUnlock }
  | unregRelease {s : Sys} (h : s.dloc = .unregUnlock) (hl : s.lock = some 0) :
      Step s 0 .release { s with lock := none, dloc := .select }
  | recvBcast {s : Sys} (a : Asset) (fail : List Conn) (h : s.dloc = .select) :
      Step s 0 .recv { s with dloc := .bcastLock a fail }
  | bcastAcquire {s : Sys} {a : Asset} {fail : List Conn}
      (h : s.dloc = .bcastLock a fail) (hl : s.lock = none) :
      Step s 0 .bcastBegin
        { s with lock := some 0, dloc := .bcastIter a fail s.clients }
  | bcastStep {s : Sys} {a : Asset} {fail : List Conn} {c : Conn} {v : Client}
      {rest : List (Conn × Client)}
      (h : s.dloc = .bcastIter a fail ((c, v) :: rest)) :
      Step s 0 (.writeAttempt c)
        { s with
          clients := if c ∈ fail then mapDel s.clients c else s.clients
          dloc := .bcastIter a fail rest }
  | bcastDone {s : Sys} {a : Asset} {fail : List Conn}
      (h : s.dloc = .bcastIter a fail []) :
      Step s 0 .bcastEnd { s with dloc := .bcastUnlock }
  | bcastRelease {s : Sys} (h : s.dloc = .bcastUnlock) (hl : s.lock = some 0) :
      Step s 0 .release { s with lock := none, dloc := .select }
  | hSpawn {s : Sys} (n : ℕ) (c : Conn) (uuid : String)
      (h : s.handlers n = none) :
      Step s (n + 1) .spawn
        { s with handlers := Function.update s.handlers n (some (.regLock c uuid)) }
  | hAcquire {s : Sys} {n : ℕ} {c : Conn} {uuid : String}
      (h : s.handlers n = some (.regLock c uuid)) (hl : s.lock = none) :
      Step s (n + 1) .acquire
        { s with
          lock := some (n + 1)
          handlers := Function.update s.handlers n (some (.regInsert c uuid)) }
  | hInsert {s : Sys} {n : ℕ} {c : Conn} {uuid : String}
      (h : s.handlers n = some (.regInsert c uuid)) :
      Step s (n + 1) (.regWrite c)
        { s with
          clients := mapSet s.clients c ⟨c, uuid⟩
          handlers := Function.update s.handlers n (some (.regUnlock c)) }
  | hRelease {s : Sys} {n : ℕ} {c : Conn}
      (h : s.handlers n = some (.regUnlock c)) (hl : s.lock = some (n + 1)) :
      Step s (n + 1) .release
        { s with
          lock := none
          handlers := Function.update s.handlers n (some (.readLoop c)) }
  | hReadErr {s : Sys} {n : ℕ} {c : Conn}
      (h : s.handlers n = some (.readLoop c)) :
      Step s (n + 1) .tau
        { s with handlers := Function.update s.handlers n (some (.sendUnreg c)) }
  | hSendUnreg {s : Sys} {n : ℕ} {c : Conn}
      (h : s.handlers n = some (.sendUnreg c)) :
      Step s (n + 1) .tau
        { s with handlers := Function.update s.handlers n (some .done) }

/-- Reachability from the initial state. -/
inductive Reach : Sys → Prop where
  | init : Reach sysInit
  | step {s : Sys} {t : ℕ} {a : Act} {s' : Sys} :
      Reach s → Step s t a s' → Reach s'

/-- Dispatcher locations inside its mutex-held regions. -/
def dLocked : DLoc → Bool
  | .unregDel _ => true
  | .unregUnlock => true
  | .bcastIter _ _ _ => true
  | .bcastUnlock => true
  | _ => false

/-- Handler locations inside the handler's mutex-held region. -/
def hLocked : HLoc → Bool
  | .regInsert _ _ => true
  | .regUnlock _ => true
  | _ => false

/-- The lock-discipline invariant: a thread is inside a mutex-held region
only while it is the holder of the mutex. -/
def LockInv (s : Sys) : Prop :=
  (dLocked s.dloc = true → s.lock = some 0) ∧
  (∀ n l, s.handlers n = some l → hLocked l = true → s.lock = some (n + 1))

/-! ## Helper lemmas -/

theorem simulateTick_snd (st : ProducerState) (r : ℚ) :
    (simulateTick st r).2 = st := rfl

theorem producerStateAt_eq_init (rs : ℕ → ℚ) (n : ℕ) :
    producerStateAt rs n = producerInit := by
  induction n with
  | zero => rfl
  | succ n ih => simp [producerStateAt, simulateTick_snd, ih]

theorem broadcastLoop_eq {β : Type} (a : Asset) (fail : List Conn)
    (l : List (Conn × β)) :
    broadcastLoop a fail l =
      (l.filter (fun p => p.1 ∉ fail),
       (l.map Prod.fst).filter (fun c => c ∈ fail),
       l.map (fun p => (p.1, a))) := by
  induction l with
  | nil => rfl
  | cons p rest ih =>
    obtain ⟨c, v⟩ := p
    by_cases hc : c ∈ fail <;> simp [broadcastLoop, ih, hc]

theorem keys_mapSet {β : Type} (m : List (Conn × β)) (k : Conn) (v : β) :
    keys (mapSet m k v) = if k ∈ keys m then keys m else keys m ++ [k] := by
  unfold mapSet keys
  by_cases hk : k ∈ m.map Prod.fst
  · simp only [hk, if_true, List.map_map]
    apply List.map_congr_left
    intro p _
    by_cases hp : p.1 = k <;> simp [hp]
  · simp [hk]

theorem keys_mapDel {β : Type} (m : List (Conn × β)) (k : Conn) :
    keys (mapDel m k) = (keys m).filter (fun c => c ≠ k) := by
  unfold mapDel keys
  induction m with
  | nil => rfl
  | cons p rest ih =>
    simp only [ne_eq, decide_not] at ih ⊢
    by_cases hp : p.1 = k <;> simp [hp, ih]

theorem keys_filter {β : Type} (m : List (Conn × β)) (q : Conn → Bool) :
    keys (m.filter (fun p => q p.1)) = (keys m).filter q := by
  unfold keys
  induction m with
  | nil => rfl
  | cons p rest ih =>
    by_cases hp : q p.1 = true <;> simp [hp, ih]

theorem filter_length_split {α : Type} (l : List α) (p : α → Bool) :
    (l.filter p).length + (l.filter (fun a => !(p a))).length = l.length := by
  induction l with
  | nil => rfl
  | cons a rest ih =>
    by_cases ha : p a = true <;> simp [ha, ih] <;> omega

theorem keys_filter_notmem {β : Type} (m : List (Conn × β)) (fail : List Conn) :
    keys (m.filter (fun p => p.1 ∉ fail)) = (keys m).filter (fun c => c ∉ fail) := by
  unfold keys
  induction m with
  | nil => rfl
  | cons p rest ih =>
    simp only [decide_not] at ih ⊢
    by_cases hp : p.1 ∈ fail <;> simp [hp, ih]

theorem filter_ne_length (l : List Conn) (c : Conn) (hnd : l.Nodup) (hc : c ∈ l) :
    (l.filter (fun k => k ≠ c)).length + 1 = l.length := by
  induction l with
  | nil => simp at hc
  | cons a rest ih =>
    simp only [List.nodup_cons] at hnd
    simp only [List.mem_cons] at hc
    by_cases ha : a = c
    · subst ha
      have hrest : rest.filter (fun k => k ≠ a) = rest := by
        apply List.filter_eq_self.mpr
        intro b hb
        have hba : b ≠ a := fun h => hnd.1 (h ▸ hb)
        simp [hba]
      simp [List.filter_cons, hrest]
      intro b hb hba
      exact hnd.1 (hba ▸ hb)
    · have hc' : c ∈ rest := by
        rcases hc with h | h
        · exact absurd h.symm ha
        · exact h
      have hne : (decide (a ≠ c)) = true := by simp [ha]
      simp only [List.filter_cons, hne, if_true, List.length_cons]
      have := ih hnd.2 hc'
      omega

theorem mapDel_length {β : Type} (m : List (Conn × β)) (c : Conn)
    (hnd : (keys m).Nodup) (hc : c ∈ keys m) :
    (mapDel m c).length + 1 = m.length := by
  have h2 := keys_mapDel m c
  have h3 := filter_ne_length (keys m) c hnd hc
  have hl1 : (keys (mapDel m c)).length = (mapDel m c).length := by simp [keys]
  have hl2 : (keys m).length = m.length := by simp [keys]
  rw [h2] at hl1
  omega

theorem hubStep_registryInv {β : Type} {st : HubState β} {op : HubOp β}
    (h : RegistryInv st) (hf : registerFresh st op = true) :
    RegistryInv (hubStep st op).1 := by
  obtain ⟨hnd, hcl⟩ := h
  cases op with
  | register c v =>
    have hc' : c ∉ st.closed := by
      simpa [registerFresh] using hf
    constructor
    · show (keys (mapSet st.clients c v)).Nodup
      rw [keys_mapSet]
      by_cases hc : c ∈ keys st.clients
      · simpa [hc]
      · simp [hc, List.nodup_append, hnd]
    · show ∀ x ∈ keys (mapSet st.clients c v), x ∉ st.closed
      intro x hx
      rw [keys_mapSet] at hx
      by_cases hc : c ∈ keys st.clients
      · exact hcl x (by simpa [hc] using hx)
      · simp only [hc, if_false, List.mem_append, List.mem_singleton] at hx
        rcases hx with hx | hx
        · exact hcl x hx
        · exact hx ▸ hc'
  | unregister c =>
    simp only [hubStep]
    by_cases hc : c ∈ keys st.clients
    · simp only [hc, if_true]
      constructor
      · show (keys (mapDel st.clients c)).Nodup
        rw [keys_mapDel]
        exact hnd.filter _
      · show ∀ x ∈ keys (mapDel st.clients c), x ∉ st.closed ++ [c]
        intro x hx
        rw [keys_mapDel] at hx
        simp only [List.mem_filter, ne_eq, decide_not, Bool.not_eq_eq_eq_not,
          Bool.not_true, decide_eq_false_iff_not] at hx
        simp only [List.mem_append, List.mem_singleton]
        rintro (hmem | rfl)
        · exact hcl x hx.1 hmem
        · exact hx.2 rfl
    · simpa [hc] using And.intro hnd hcl
  | broadcast a fail =>
    simp only [hubStep, broadcastLoop_eq]
    constructor
    · show (keys (st.clients.filter fun p => p.1 ∉ fail)).Nodup
      rw [keys_filter_notmem]
      exact hnd.filter _
    · show ∀ x ∈ keys (st.clients.filter fun p => p.1 ∉ fail),
        x ∉ st.closed ++ (keys st.clients).filter (fun c => c ∈ fail)
      intro x hx
      rw [keys_filter_notmem] at hx
      simp only [List.mem_filter, decide_not, Bool.not_eq_eq_eq_not, Bool.not_true,
        decide_eq_false_iff_not] at hx
      simp only [List.mem_append, List.mem_filter, decide_eq_true_eq]
      rintro (hmem | ⟨-, hfail⟩)
      · exact hcl x hx.1 hmem
      · exact hx.2 hfail

theorem foldl_hubStep_registryInv {β : Type} :
    ∀ (ops : List (HubOp β)) (st : HubState β), RegistryInv st →
      freshFrom st ops = true →
      RegistryInv (ops.foldl (fun st op => (hubStep st op).1) st)
  | [], _, h, _ => h
  | op :: rest, st, h, hf => by
    simp only [freshFrom, Bool.and_eq_true] at hf
    simp only [List.foldl_cons]
    exact foldl_hubStep_registryInv rest _ (hubStep_registryInv h hf.1) hf.2

theorem freshFrom_take {β : Type} :
    ∀ (ops : List (HubOp β)) (st : HubState β), freshFrom st ops = true →
      ∀ n, freshFrom st (ops.take n) = true
  | [], _, _, n => by cases n <;> simp [freshFrom]
  | _ :: _, _, _, 0 => rfl
  | op :: rest, st, h, n + 1 => by
    simp only [freshFrom, Bool.and_eq_true, List.take_succ_cons] at h ⊢
    exact ⟨h.1, freshFrom_take rest _ h.2 n⟩

theorem count_one_of_nodup (l : List Conn) (c : Conn) (h : l.Nodup) (hc : c ∈ l) :
    l.count c = 1 := by
  induction l with
  | nil => simp at hc
  | cons a rest ih =>
    simp only [List.nodup_cons] at h
    rcases List.mem_cons.mp hc with rfl | hc'
    · have h0 : rest.count c = 0 := List.count_eq_zero.mpr h.1
      simp [List.count_cons, h0]
    · have hne : a ≠ c := fun hac => h.1 (hac ▸ hc')
      simp [List.count_cons, ih h.2 hc', hne]

theorem lockInv_init : LockInv sysInit := by
  constructor
  · intro h
    simp [sysInit, dLocked] at h
  · intro n l hl
    simp [sysInit] at hl

theorem lockInv_step {s : Sys} {t : ℕ} {a : Act} {s' : Sys}
    (hinv : LockInv s) (hstep : Step s t a s') : LockInv s' := by
  obtain ⟨hd, hh⟩ := hinv
  cases hstep with
  | recvReg h => exact ⟨fun hl => by simp [dLocked] at hl, hh⟩
  | regLogStep h => exact ⟨fun hl => by simp [dLocked] at hl, hh⟩
  | recvUnreg c h => exact ⟨fun hl => by simp [dLocked] at hl, hh⟩
  | unregAcquire h hl =>
    refine ⟨fun _ => rfl, fun n l hln hll => ?_⟩
    have hcontra := hh n l hln hll
    rw [hl] at hcontra
    cases hcontra
  | unregDelStep h => exact ⟨fun _ => hd (by rw [h]; rfl), hh⟩
  | unregRelease h hl =>
    refine ⟨fun hl' => by simp [dLocked] at hl', fun n l hln hll => ?_⟩
    have hcontra := hh n l hln hll
    rw [hl] at hcontra
    simp at hcontra
  | recvBcast a fail h => exact ⟨fun hl => by simp [dLocked] at hl, hh⟩
  | bcastAcquire h hl =>
    refine ⟨fun _ => rfl, fun n l hln hll => ?_⟩
    have hcontra := hh n l hln hll
    rw [hl] at hcontra
    cases hcontra
  | bcastStep h => exact ⟨fun _ => hd (by rw [h]; rfl), hh⟩
  | bcastDone h => exact ⟨fun _ => hd (by rw [h]; rfl), hh⟩
  | bcastRelease h hl =>
    refine ⟨fun hl' => by simp [dLocked] at hl', fun n l hln hll => ?_⟩
    have hcontra := hh n l hln hll
    rw [hl] at hcontra
    simp at hcontra
  | hSpawn n c uuid h =>
    refine ⟨hd, fun m l hm hll => ?_⟩
    simp only [Function.update_apply] at hm
    by_cases hmn : m = n
    · rw [if_pos hmn] at hm
      injection hm with hm
      subst hm
      simp [hLocked] at hll
    · rw [if_neg hmn] at hm
      exact hh m l hm hll
  | hAcquire h hl =>
    rename_i n c uuid
    refine ⟨fun hdl => ?_, fun m l hm hll => ?_⟩
    · have hcontra := hd hdl
      rw [hl] at hcontra
      cases hcontra
    · simp only [Function.update_apply] at hm
      by_cases hmn : m = n
      · subst hmn
        rfl
      · rw [if_neg hmn] at hm
        have hcontra := hh m l hm hll
        rw [hl] at hcontra
        cases hcontra
  | hInsert h =>
    rename_i n c uuid
    refine ⟨hd, fun m l hm hll => ?_⟩
    simp only [Function.update_apply] at hm
    by_cases hmn : m = n
    · subst hmn
      exact hh m _ h rfl
    · rw [if_neg hmn] at hm
      exact hh m l hm hll
  | hRelease h hl =>
    rename_i n c
    refine ⟨fun hdl => ?_, fun m l hm hll => ?_⟩
    · have hcontra := hd hdl
      rw [hl] at hcontra
      simp at hcontra
    · simp only [Function.update_apply] at hm
      by_cases hmn : m = n
      · rw [if_pos hmn] at hm
        injection hm with hm
        subst hm
        simp [hLocked] at hll
      · rw [if_neg hmn] at hm
        have hcontra := hh m l hm hll
        rw [hl] at hcontra
        injection hcontra with hcontra
        omega
  | hReadErr h =>
    rename_i n c
    refine ⟨hd, fun m l hm hll => ?_⟩
    simp only [Function.update_apply] at hm
    by_cases hmn : m = n
    · rw [if_pos hmn] at hm
      injection hm with hm
      subst hm
      simp [hLocked] at hll
    · rw [if_neg hmn] at hm
      exact hh m l hm hll
  | hSendUnreg h =>
    rename_i n c
    refine ⟨hd, fun m l hm hll => ?_⟩
    simp only [Function.update_apply] at hm
    by_cases hmn : m = n
    · rw [if_pos hmn] at hm
      injection hm with hm
      subst hm
      simp [hLocked] at hll
    · rw [if_neg hmn] at hm
      exact hh m l hm hll

theorem lockInv_reach {s : Sys} (h : Reach s) : LockInv s := by
  induction h with
  | init => exact lockInv_init
  | step _ hstep ih => exact lockInv_step ih hstep

theorem stepCloses_spec {β : Type} (st : HubState β) (op : HubOp β) (c : Conn) :
    c ∈ stepCloses st op ↔
      c ∈ keys st.clients ∧ c ∉ keys (hubStep st op).1.clients := by
  cases op with
  | register c' v =>
    simp only [stepCloses, hubStep, List.drop_length, List.not_mem_nil, false_iff,
      not_and, not_not]
    intro hc
    rw [keys_mapSet]
    by_cases hc' : c' ∈ keys st.clients
    · simpa [hc']
    · simp [hc', hc]
  | unregister c' =>
    simp only [stepCloses, hubStep]
    by_cases hc' : c' ∈ keys st.clients
    · simp only [hc', if_true, List.drop_left, keys_mapDel, List.mem_singleton,
        List.mem_filter, ne_eq, decide_not, Bool.not_eq_eq_eq_not, Bool.not_true,
        decide_eq_false_iff_not, not_and, not_not]
      constructor
      · rintro rfl
        exact ⟨hc', fun h => rfl⟩
      · rintro ⟨hmem, himp⟩
        exact himp hmem
    · simp only [hc', if_false, List.drop_length, List.not_mem_nil, false_iff,
        not_and, not_not]
      intro hc
      exact hc
  | broadcast a fail =>
    simp only [stepCloses, hubStep, broadcastLoop_eq, List.drop_left]
    rw [keys_filter_notmem]
    simp only [List.mem_filter, decide_eq_true_eq, decide_not,
      Bool.not_eq_eq_eq_not, Bool.not_true, decide_eq_false_iff_not, not_and,
      not_not]
    constructor
    · rintro ⟨hmem, hfail⟩
      exact ⟨hmem, fun _ => hfail⟩
    · rintro ⟨hmem, himp⟩
      exact ⟨hmem, himp hmem⟩

theorem registryInv_init (β : Type) : RegistryInv (hubInit β) := by
  constructor
  · exact List.nodup_nil
  · intro c hc
    simp [hubInit, keys] at hc

theorem foldl_unregister_absent {β : Type} (c : Conn) :
    ∀ (k : ℕ) (st : HubState β), c ∉ keys st.clients →
      (List.replicate k (HubOp.unregister c)).foldl
        (fun st op => (hubStep st op).1) st = st
  | 0, _, _ => rfl
  | k + 1, st, h => by
    have hstep : (hubStep st (HubOp.unregister c)).1 = st := by
      simp [hubStep, h]
    rw [List.replicate_succ, List.foldl_cons, hstep]
    exact foldl_unregister_absent c k st h

/-! ## Claim theorems -/

/-- C3: at every tick of the producer, with the fixed balance, position
size and lock price, the emitted snapshot satisfies
`pnl = (newPrice − previousPrice) × positionSize`,
`margin = balance − pnl` and
`transferable = margin − lockPrice × positionSize` (`lockPrice = 100`,
`positionSize = 88.8`); the four fields are built from these formulas at
construction (the `Asset` is a value, never mutated afterwards). -/
theorem snapshot_arithmetic (rs : ℕ → ℚ) (n : ℕ) :
    (emittedAsset rs n).pnl =
      (tickNewPrice (producerStateAt rs n) (rs n) -
        (producerStateAt rs n).previousPrice) * 88.8 ∧
    (emittedAsset rs n).margin =
      (emittedAsset rs n).balance - (emittedAsset rs n).pnl ∧
    (emittedAsset rs n).canTransfer =
      (emittedAsset rs n).margin - 100.0 * 88.8 ∧
    (emittedAsset rs n).balance = 26800.5 := by
  have hst := producerStateAt_eq_init rs n
  refine ⟨?_, ?_, ?_, ?_⟩
  · rw [emittedAsset, hst]
    show (simulateTick producerInit (rs n)).1.pnl = _
    simp [simulateTick, tickNewPrice, producerInit]
  · rw [emittedAsset, hst]
    rfl
  · rw [emittedAsset, hst]
    show (simulateTick producerInit (rs n)).1.canTransfer = _
    simp [simulateTick, producerInit]
  · rw [emittedAsset, hst]
    rfl

/-- C6: the producer never writes the newly computed price back into
`previousPrice`: at every tick the carried state still has
`previousPrice = 100.0`, each tick perturbs that same fixed baseline, and
`pnl` is always computed relative to it. -/
theorem baseline_not_carried (rs : ℕ → ℚ) (n : ℕ) :
    (producerStateAt rs n).previousPrice = 100.0 ∧
    (simulateTick (producerStateAt rs n) (rs n)).2.previousPrice = 100.0 ∧
    (emittedAsset rs n).pnl =
      (tickNewPrice (producerStateAt rs n) (rs n) - 100.0) * 88.8 := by
  have hst := producerStateAt_eq_init rs n
  refine ⟨?_, ?_, ?_⟩
  · rw [hst]; rfl
  · rw [simulateTick_snd, hst]; rfl
  · rw [emittedAsset, hst]
    show (simulateTick producerInit (rs n)).1.pnl = _
    simp [simulateTick, tickNewPrice, producerInit]

/-- C7: for the single tick with `balance = 26800.5`,
`positionSize = 88.8`, `previousPrice = 100.0` and the pseudo-random
relative delta fixed at `+0.2%` (the draw `rand.Float64() = 0.7` gives
`(0.7 − 0.5)/100 = 0.002`), the emitted snapshot is exactly
`newPrice = 100.2`, `pnl = 17.76`, `margin = 26782.74`,
`transferable = 17902.74`, and the broadcast pass delivers exactly this
payload to a registered connection. -/
theorem single_tick_scenario :
    ((7 : ℚ) / 10 - 0.5) / 100 = 0.2 / 100 ∧
    tickNewPrice producerInit (7 / 10) = 100.2 ∧
    emittedAsset (fun _ => 7 / 10) 0 =
      { balance := 26800.5, pnl := 17.76, margin := 26782.74,
        canTransfer := 17902.74 } ∧
    (hubStep (⟨[(5, ⟨5, "u"⟩)], []⟩ : HubState Client)
        (HubOp.broadcast (emittedAsset (fun _ => 7 / 10) 0) [])).2 =
      [(5, emittedAsset (fun _ => 7 / 10) 0)] := by
  refine ⟨by norm_num, ?_, ?_, rfl⟩
  · rw [tickNewPrice, producerInit]
    norm_num
  · rw [emittedAsset]
    show (simulateTick producerInit (7 / 10)).1 = _
    rw [simulateTick, producerInit]
    simp only [Asset.mk.injEq]
    norm_num

/-- C1: a single broadcast pass over a registry of `N` connections of
which exactly `K` fail their write attempts delivery to all `N`
connections (each exactly once, with the broadcast payload, no retries),
removes exactly the `K` failing connections from the registry, closes
exactly those in the same pass, and leaves the `N − K` succeeding
connections registered. -/
theorem broadcast_fanout {β : Type} (st : HubState β) (a : Asset)
    (fail : List Conn) (h : (keys st.clients).Nodup) :
    (hubStep st (HubOp.broadcast a fail)).2 =
      st.clients.map (fun p => (p.1, a)) ∧
    (hubStep st (HubOp.broadcast a fail)).2.length = st.clients.length ∧
    (∀ c ∈ keys st.clients,
      ((hubStep st (HubOp.broadcast a fail)).2.map Prod.fst).count c = 1) ∧
    stepCloses st (HubOp.broadcast a fail) =
      (keys st.clients).filter (fun c => c ∈ fail) ∧
    keys (hubStep st (HubOp.broadcast a fail)).1.clients =
      (keys st.clients).filter (fun c => c ∉ fail) ∧
    (hubStep st (HubOp.broadcast a fail)).1.clients.length +
        ((keys st.clients).filter (fun c => c ∈ fail)).length =
      st.clients.length ∧
    (∀ p ∈ st.clients, p.1 ∉ fail →
      p ∈ (hubStep st (HubOp.broadcast a fail)).1.clients) := by
  have hatt : (hubStep st (HubOp.broadcast a fail)).2 =
      st.clients.map (fun p => (p.1, a)) := by
    simp [hubStep, broadcastLoop_eq]
  have hcl : (hubStep st (HubOp.broadcast a fail)).1.clients =
      st.clients.filter (fun p => p.1 ∉ fail) := by
    simp [hubStep, broadcastLoop_eq]
  refine ⟨hatt, by rw [hatt]; simp, ?_, ?_, ?_, ?_, ?_⟩
  · intro c hc
    have hfst : (hubStep st (HubOp.broadcast a fail)).2.map Prod.fst =
        keys st.clients := by
      rw [hatt]
      simp [keys, List.map_map]
    rw [hfst]
    exact count_one_of_nodup _ c h hc
  · simp only [stepCloses, hubStep, broadcastLoop_eq, List.drop_left, keys]
  · rw [hcl]
    exact keys_filter_notmem st.clients fail
  · rw [hcl]
    have h1 : (st.clients.filter fun p => p.1 ∉ fail).length =
        ((keys st.clients).filter (fun c => c ∉ fail)).length := by
      rw [← keys_filter_notmem st.clients fail]
      simp [keys]
    have h2 := filter_length_split (keys st.clients) (fun c => decide (c ∈ fail))
    have h3 : ((keys st.clients).filter fun c => !(decide (c ∈ fail))).length =
        ((keys st.clients).filter (fun c => c ∉ fail)).length := by
      simp only [decide_not]
    have h4 : (keys st.clients).length = st.clients.length := by simp [keys]
    omega
  · intro p hp hpf
    rw [hcl]
    simp only [List.mem_filter, decide_not, Bool.not_eq_eq_eq_not, Bool.not_true,
      decide_eq_false_iff_not]
    exact ⟨hp, hpf⟩

theorem broadcast_fanout_witness :
    (keys ((⟨[(0, true), (1, true), (2, true)], []⟩ : HubState Bool)).clients).Nodup ∧
    ((hubStep (⟨[(0, true), (1, true), (2, true)], []⟩ : HubState Bool)
        (HubOp.broadcast ⟨0, 0, 0, 0⟩ [1])).2 =
      [(0, true), (1, true), (2, true)].map (fun p => (p.1, (⟨0, 0, 0, 0⟩ : Asset))) ∧
    (hubStep (⟨[(0, true), (1, true), (2, true)], []⟩ : HubState Bool)
        (HubOp.broadcast ⟨0, 0, 0, 0⟩ [1])).2.length =
      ([(0, true), (1, true), (2, true)] : List (Conn × Bool)).length ∧
    (∀ c ∈ keys ((⟨[(0, true), (1, true), (2, true)], []⟩ : HubState Bool)).clients,
      ((hubStep (⟨[(0, true), (1, true), (2, true)], []⟩ : HubState Bool)
          (HubOp.broadcast ⟨0, 0, 0, 0⟩ [1])).2.map Prod.fst).count c = 1) ∧
    stepCloses (⟨[(0, true), (1, true), (2, true)], []⟩ : HubState Bool)
        (HubOp.broadcast ⟨0, 0, 0, 0⟩ [1]) =
      (keys ((⟨[(0, true), (1, true), (2, true)], []⟩ : HubState Bool)).clients).filter
        (fun c => c ∈ [1]) ∧
    keys (hubStep (⟨[(0, true), (1, true), (2, true)], []⟩ : HubState Bool)
        (HubOp.broadcast ⟨0, 0, 0, 0⟩ [1])).1.clients =
      (keys ((⟨[(0, true), (1, true), (2, true)], []⟩ : HubState Bool)).clients).filter
        (fun c => c ∉ [1]) ∧
    (hubStep (⟨[(0, true), (1, true), (2, true)], []⟩ : HubState Bool)
        (HubOp.broadcast ⟨0, 0, 0, 0⟩ [1])).1.clients.length +
      ((keys ((⟨[(0, true), (1, true), (2, true)], []⟩ : HubState Bool)).clients).filter
        (fun c => c ∈ [1])).length =
      ([(0, true), (1, true), (2, true)] : List (Conn × Bool)).length ∧
    (∀ p ∈ ([(0, true), (1, true), (2, true)] : List (Conn × Bool)), p.1 ∉ [1] →
      p ∈ (hubStep (⟨[(0, true), (1, true), (2, true)], []⟩ : HubState Bool)
        (HubOp.broadcast ⟨0, 0, 0, 0⟩ [1])).1.clients)) :=
  ⟨by decide,
   broadcast_fanout ⟨[(0, true), (1, true), (2, true)], []⟩ ⟨0, 0, 0, 0⟩ [1] (by decide)⟩

/-- C2: for every sequence of register, unregister and broadcast
operations in which registrations register fresh handles (as the acceptor
guarantees: each connection is registered exactly once, before any code
path can close it), the registry satisfies, at every step, the invariant
that it holds no duplicate entry for the same connection identity and no
entry whose channel has already been closed by an unregister or a failed
broadcast write; and at every step the handles closed by the step are
exactly those removed from the registry by that same step. -/
theorem registry_invariant_run {β : Type} (ops : List (HubOp β))
    (h : freshFrom (hubInit β) ops = true) :
    (∀ n, RegistryInv (hubRun (ops.take n))) ∧
    (∀ (n : ℕ) (hn : n < ops.length) (c : Conn),
      c ∈ stepCloses (hubRun (ops.take n)) (ops.get ⟨n, hn⟩) ↔
        c ∈ keys (hubRun (ops.take n)).clients ∧
        c ∉ keys (hubStep (hubRun (ops.take n)) (ops.get ⟨n, hn⟩)).1.clients) := by
  constructor
  · intro n
    exact foldl_hubStep_registryInv (ops.take n) (hubInit β) (registryInv_init β)
      (freshFrom_take ops (hubInit β) h n)
  · intro n hn c
    exact stepCloses_spec _ _ c

theorem registry_invariant_run_witness :
    freshFrom (hubInit Bool)
        [HubOp.register 0 true, HubOp.broadcast ⟨0, 0, 0, 0⟩ [0]] = true ∧
    ((∀ n, RegistryInv (hubRun
        ([HubOp.register 0 true, HubOp.broadcast ⟨0, 0, 0, 0⟩ [0]].take n))) ∧
     (∀ (n : ℕ)
        (hn : n < [HubOp.register 0 true,
                   HubOp.broadcast (⟨0, 0, 0, 0⟩ : Asset) [0]].length) (c : Conn),
        c ∈ stepCloses
            (hubRun ([HubOp.register 0 true, HubOp.broadcast ⟨0, 0, 0, 0⟩ [0]].take n))
            ([HubOp.register 0 true, HubOp.broadcast ⟨0, 0, 0, 0⟩ [0]].get ⟨n, hn⟩) ↔
          c ∈ keys (hubRun
            ([HubOp.register 0 true, HubOp.broadcast ⟨0, 0, 0, 0⟩ [0]].take n)).clients ∧
          c ∉ keys (hubStep
            (hubRun ([HubOp.register 0 true, HubOp.broadcast ⟨0, 0, 0, 0⟩ [0]].take n))
            ([HubOp.register 0 true,
              HubOp.broadcast ⟨0, 0, 0, 0⟩ [0]].get ⟨n, hn⟩)).1.clients)) :=
  ⟨by decide, registry_invariant_run
    [HubOp.register 0 true, HubOp.broadcast ⟨0, 0, 0, 0⟩ [0]] (by decide)⟩

/-- C5: unregistration is idempotent: unregistering a handle not present
in the registry is a no-op — the state is unchanged and no `Close` is
performed (so no panic and no double close) — while unregistering a
present handle removes exactly that one entry, leaves every other entry
registered, and closes exactly that channel, once, in the same step. -/
theorem unregister_idempotent {β : Type} (st : HubState β) (c : Conn)
    (hnd : (keys st.clients).Nodup) :
    (c ∉ keys st.clients →
      hubStep st (HubOp.unregister c) = (st, []) ∧
      stepCloses st (HubOp.unregister c) = []) ∧
    (c ∈ keys st.clients →
      c ∉ keys (hubStep st (HubOp.unregister c)).1.clients ∧
      (∀ p ∈ st.clients, p.1 ≠ c →
        p ∈ (hubStep st (HubOp.unregister c)).1.clients) ∧
      (hubStep st (HubOp.unregister c)).1.clients.length + 1 = st.clients.length ∧
      (hubStep st (HubOp.unregister c)).1.closed = st.closed ++ [c] ∧
      stepCloses st (HubOp.unregister c) = [c]) := by
  constructor
  · intro hc
    have hstep : hubStep st (HubOp.unregister c) = (st, []) := by
      simp [hubStep, hc]
    refine ⟨hstep, ?_⟩
    show (hubStep st (HubOp.unregister c)).1.closed.drop st.closed.length = []
    rw [hstep]
    exact List.drop_length _
  · intro hc
    have h1 : (hubStep st (HubOp.unregister c)).1.clients = mapDel st.clients c := by
      simp [hubStep, hc]
    have h2 : (hubStep st (HubOp.unregister c)).1.closed = st.closed ++ [c] := by
      simp [hubStep, hc]
    refine ⟨?_, ?_, ?_, h2, ?_⟩
    · rw [h1, keys_mapDel]
      simp
    · intro p hp hpc
      rw [h1]
      simp only [mapDel, List.mem_filter, ne_eq, decide_not,
        Bool.not_eq_eq_eq_not, Bool.not_true, decide_eq_false_iff_not]
      exact ⟨hp, hpc⟩
    · rw [h1]
      exact mapDel_length st.clients c hnd hc
    · show (hubStep st (HubOp.unregister c)).1.closed.drop st.closed.length = [c]
      rw [h2]
      exact List.drop_left _ _

theorem unregister_idempotent_witness :
    (hubStep (hubInit Bool) (HubOp.unregister 0) = (hubInit Bool, []) ∧
     stepCloses (hubInit Bool) (HubOp.unregister 0) = []) ∧
    stepCloses (⟨[(0, true)], []⟩ : HubState Bool) (HubOp.unregister 0) = [0] :=
  ⟨(unregister_idempotent (hubInit Bool) 0 (by decide)).1 (by decide),
   (((unregister_idempotent ⟨[(0, true)], []⟩ 0 (by decide)).2 (by decide)).2.2.2).2⟩

/-- C4 counterexample: in the part_000 variant a registered connection's
channel is closed twice, not exactly once: when the read loop detects the
error it sends an unregister — the dispatcher removes the entry and calls
`Close` — and then `break`s out of the loop, so `handleConnections`
returns and its `defer conn.Close()` closes the same channel a second
time.  Concretely, connection `0` with UUID `"u"`, registered and then
hitting a read error, sees two `Close` calls over its lifecycle. -/
theorem close_twice_p0 :
    closeCountP0 0 "u" ⟨0, 0, 0, 0⟩ true Fate.readError = 2 ∧
    closeCountP0 0 "u" ⟨0, 0, 0, 0⟩ true Fate.readError ≠ 1 := by
  constructor <;> decide

/-- C4 (amended): each connection's channel is closed exactly once by the
hub (the dispatcher's unregister branch or the failed-write path of a
broadcast pass, whichever its fate triggers, never both).  In the
`main.go` variant this is the only close — the handler's read loop never
breaks, so the deferred `Close` never runs and the lifecycle total is
exactly one even though the handler keeps sending unregisters — while in
the part_000 variant the handler's deferred `Close` always runs as well,
so a registered connection's channel is closed exactly twice (the second
call acting on an already-closed channel) and a connection whose UUID
read failed, never registered, is closed exactly once. -/
theorem close_once_amended (c : Conn) (uuid : String) (a : Asset) (f : Fate)
    (k : ℕ) :
    closeCountMain c a f k = 1 ∧
    (hubRun (lifecycleOpsP0 c uuid a f)).closed.count c = 1 ∧
    closeCountP0 c uuid a true f = 2 ∧
    closeCountP0 c uuid a false f = 1 := by
  have hreg : ∀ (β : Type) (v : β),
      (hubStep (hubInit β) (HubOp.register c v)).1 = ⟨[(c, v)], []⟩ := by
    intro β v
    simp [hubStep, mapSet, hubInit, keys]
  have hunreg : ∀ (β : Type) (v : β),
      (hubStep (⟨[(c, v)], []⟩ : HubState β) (HubOp.unregister c)).1 =
        ⟨[], [c]⟩ := by
    intro β v
    simp [hubStep, keys, mapDel]
  have hbfail : ∀ (β : Type) (v : β),
      (hubStep (⟨[(c, v)], []⟩ : HubState β) (HubOp.broadcast a [c])).1 =
        ⟨[], [c]⟩ := by
    intro β v
    simp [hubStep, broadcastLoop_eq, keys]
  have hmain : ∀ f k, closeCountMain c a f k = 1 := by
    intro f k
    cases f with
    | readError =>
      show (hubRun (HubOp.register c true ::
        List.replicate (k + 1) (HubOp.unregister c))).closed.count c = 1
      unfold hubRun
      rw [List.foldl_cons, hreg Bool true, List.replicate_succ, List.foldl_cons,
        hunreg Bool true, foldl_unregister_absent c k _ (by simp [keys])]
      simp
    | writeFail =>
      show (hubRun (HubOp.register c true :: HubOp.broadcast a [c] ::
        List.replicate k (HubOp.unregister c))).closed.count c = 1
      unfold hubRun
      rw [List.foldl_cons, hreg Bool true, List.foldl_cons, hbfail Bool true,
        foldl_unregister_absent c k _ (by simp [keys])]
      simp
  have hp0run : (hubRun (lifecycleOpsP0 c uuid a f)).closed.count c = 1 := by
    cases f with
    | readError =>
      show (hubRun [HubOp.register c (Client.mk c uuid),
        HubOp.unregister c]).closed.count c = 1
      unfold hubRun
      rw [List.foldl_cons, hreg Client (Client.mk c uuid), List.foldl_cons,
        hunreg Client (Client.mk c uuid)]
      simp
    | writeFail =>
      show (hubRun [HubOp.register c (Client.mk c uuid), HubOp.broadcast a [c],
        HubOp.unregister c]).closed.count c = 1
      unfold hubRun
      rw [List.foldl_cons, hreg Client (Client.mk c uuid), List.foldl_cons,
        hbfail Client (Client.mk c uuid)]
      have hun : (hubStep (⟨[], [c]⟩ : HubState Client)
          (HubOp.unregister c)).1 = ⟨[], [c]⟩ := by
        simp [hubStep, keys]
      rw [List.foldl_cons, hun]
      simp
  have htrace : (handlerTraceP0 c uuid true).count (HEvent.closeConn c) = 1 := by
    simp [handlerTraceP0, List.count_cons]
  refine ⟨hmain f k, hp0run, ?_, ?_⟩
  · show (hubRun (lifecycleOpsP0 c uuid a f)).closed.count c +
      (handlerTraceP0 c uuid true).count (HEvent.closeConn c) = 2
    rw [hp0run, htrace]
  · show 0 + (handlerTraceP0 c uuid false).count (HEvent.closeConn c) = 1
    simp [handlerTraceP0]

/-- C9: in the part_000 variant, which reads a one-time client identifier
as the first inbound message after the handshake: if that read fails the
handler aborts registration — its trace performs no registry operation at
all (so no entry is ever created for the connection) and the channel is
closed by the deferred `Close`; if the read succeeds, exactly one insert
of exactly one entry carrying that identifier is performed. -/
theorem uuid_read_gate (c : Conn) (uuid : String) :
    (handlerTraceP0 c uuid false = [HEvent.closeConn c] ∧
     traceOpsP0 (handlerTraceP0 c uuid false) = [] ∧
     (∀ u, HEvent.mapInsert c u ∉ handlerTraceP0 c uuid false) ∧
     HEvent.closeConn c ∈ handlerTraceP0 c uuid false) ∧
    (traceOpsP0 (handlerTraceP0 c uuid true) =
       [HubOp.register c ⟨c, uuid⟩, HubOp.unregister c] ∧
     (handlerTraceP0 c uuid true).count (HEvent.mapInsert c uuid) = 1 ∧
     (hubStep (hubInit Client) (HubOp.register c ⟨c, uuid⟩)).1.clients =
       [(c, ⟨c, uuid⟩)]) := by
  refine ⟨⟨rfl, rfl, ?_, ?_⟩, rfl, ?_, ?_⟩
  · intro u
    simp [handlerTraceP0]
  · simp [handlerTraceP0]
  · simp [handlerTraceP0, List.count_cons]
  · simp [hubStep, mapSet, hubInit, keys]

/-- C10: in the part_000 variant no execution ever sends on the manager's
register channel: the handler registers by mutating the shared clients
map directly under the mutex, its trace contains no register-channel send
on either path (UUID read failure or success), and consequently the
dispatcher's register-channel branch — which only logs — runs zero
times. -/
theorem no_register_channel_send (c cx : Conn) (uuid : String) (b : Bool) :
    HEvent.sendRegister cx ∉ handlerTraceP0 c uuid b ∧
    registerBranchRuns (handlerTraceP0 c uuid b) = 0 := by
  cases b <;> simp [handlerTraceP0, registerBranchRuns]

/-- C8: broadcast passes are strictly serialized with registration and
unregistration under the same lock.  In every reachable state of the
interleaving model: (1) while the dispatcher is mid-way through a
broadcast pass it holds the mutex; (2) no step of any other thread can
change the registry during that time (in particular a handler blocked on
the mutex cannot insert); (3) no thread can acquire the mutex at all
while a pass is iterating; and (4) a broadcast pass can only begin when
no pass is active — so passes never overlap. -/
theorem broadcast_pass_serialized (s : Sys) (hreach : Reach s) :
    (∀ a fail pend, s.dloc = DLoc.bcastIter a fail pend → s.lock = some 0) ∧
    (∀ a fail pend, s.dloc = DLoc.bcastIter a fail pend →
      ∀ t act s', Step s t act s' → t ≠ 0 → s'.clients = s.clients) ∧
    (∀ a fail pend, s.dloc = DLoc.bcastIter a fail pend →
      ∀ t s', ¬ Step s t Act.acquire s') ∧
    (∀ t s', Step s t Act.bcastBegin s' →
      ∀ a fail pend, s.dloc ≠ DLoc.bcastIter a fail pend) := by
  obtain ⟨hd, hh⟩ := lockInv_reach hreach
  refine ⟨?_, ?_, ?_, ?_⟩
  · intro a fail pend hmid
    exact hd (by rw [hmid]; rfl)
  · intro a fail pend hmid t act s' hstep ht
    have hlock : s.lock = some 0 := hd (by rw [hmid]; rfl)
    cases hstep with
    | recvReg h => exact absurd rfl ht
    | regLogStep h => exact absurd rfl ht
    | recvUnreg c h => exact absurd rfl ht
    | unregAcquire h hl => exact absurd rfl ht
    | unregDelStep h => exact absurd rfl ht
    | unregRelease h hl => exact absurd rfl ht
    | recvBcast a' fail' h => exact absurd rfl ht
    | bcastAcquire h hl => exact absurd rfl ht
    | bcastStep h => exact absurd rfl ht
    | bcastDone h => exact absurd rfl ht
    | bcastRelease h hl => exact absurd rfl ht
    | hSpawn n c uuid h => rfl
    | hAcquire h hl => simp [hlock] at hl
    | hInsert h =>
      rename_i n c uuid
      have hcontra := hh n _ h rfl
      rw [hlock] at hcontra
      simp at hcontra
    | hRelease h hl => rfl
    | hReadErr h => rfl
    | hSendUnreg h => rfl
  · intro a fail pend hmid t s' hstep
    have hlock : s.lock = some 0 := hd (by rw [hmid]; rfl)
    cases hstep with
    | unregAcquire h hl => simp [hlock] at hl
    | hAcquire h hl => simp [hlock] at hl
  · intro t s' hstep a fail pend
    cases hstep with
    | bcastAcquire h hl =>
      rw [h]
      intro hcontra
      cases hcontra

theorem broadcast_pass_serialized_witness :
    (∀ a fail pend,
      (⟨some 0, [], DLoc.bcastIter ⟨0, 0, 0, 0⟩ [] [], fun _ => none⟩ : Sys).dloc =
        DLoc.bcastIter a fail pend →
      (⟨some 0, [], DLoc.bcastIter ⟨0, 0, 0, 0⟩ [] [], fun _ => none⟩ : Sys).lock =
        some 0) ∧
    (∀ a fail pend,
      (⟨some 0, [], DLoc.bcastIter ⟨0, 0, 0, 0⟩ [] [], fun _ => none⟩ : Sys).dloc =
        DLoc.bcastIter a fail pend →
      ∀ t act s',
        Step ⟨some 0, [], DLoc.bcastIter ⟨0, 0, 0, 0⟩ [] [], fun _ => none⟩ t act s' →
        t ≠ 0 →
        s'.clients =
          (⟨some 0, [], DLoc.bcastIter ⟨0, 0, 0, 0⟩ [] [], fun _ => none⟩ : Sys).clients) ∧
    (∀ a fail pend,
      (⟨some 0, [], DLoc.bcastIter ⟨0, 0, 0, 0⟩ [] [], fun _ => none⟩ : Sys).dloc =
        DLoc.bcastIter a fail pend →
      ∀ t s',
        ¬ Step ⟨some 0, [], DLoc.bcastIter ⟨0, 0, 0, 0⟩ [] [], fun _ => none⟩ t
            Act.acquire s') ∧
    (∀ t s',
      Step ⟨some 0, [], DLoc.bcastIter ⟨0, 0, 0, 0⟩ [] [], fun _ => none⟩ t
          Act.bcastBegin s' →
      ∀ a fail pend,
        (⟨some 0, [], DLoc.bcastIter ⟨0, 0, 0, 0⟩ [] [], fun _ => none⟩ : Sys).dloc ≠
          DLoc.bcastIter a fail pend) :=
  broadcast_pass_serialized
    ⟨some 0, [], DLoc.bcastIter ⟨0, 0, 0, 0⟩ [] [], fun _ => none⟩
    (Reach.step (Reach.step Reach.init (Step.recvBcast ⟨0, 0, 0, 0⟩ [] rfl))
      (Step.bcastAcquire rfl rfl))

end Exws
